import Mathlib

/-!
# AsyncRequests: the CPU-to-GPU request relay

A shallow embedding of `Source/Core/VideoCommon/AsyncRequests.cpp`.

* `Event` is the tagged request record; `HandleEvent` is the `switch` that
  dispatches one event to the video back end.
* `Relay` holds the members guarded by `m_mutex`.  Every lock-held section of
  `PushEvent`, `SetEnable`, `SetPassthrough` and `PullEventsInternal` is a
  function on `Relay` that also returns the outside calls it makes, in order.
* `Sys` and `step` give the interleaving semantics: one step is one lock-held
  section, and the handler call of `PullEventsInternal` is a step of its own
  because the lock is released around it.
-/

namespace AsyncRequests

/-! ## Events and their dispatch -/

/-- An address written through a pointer field of an event. -/
abbrev Loc := Nat

/-- The request record: `type` together with the member of the union that is
active for it.  `SWAP_EVENT` also reads the common `time` field. -/
inductive Event where
  | EFB_POKE_COLOR (x y : Int) (data : Nat)
  | EFB_POKE_Z (x y : Int) (data : Nat)
  | EFB_PEEK_COLOR (x y : Int) (data : Loc)
  | EFB_PEEK_Z (x y : Int) (data : Loc)
  | SWAP_EVENT (xfbAddr fbWidth fbStride fbHeight time presentation_time : Nat)
  | BBOX_READ (index : Int) (data : Loc)
  | FIFO_RESET
  | PERF_QUERY
  | DO_SAVE_STATE (p : Loc)
  deriving DecidableEq, Repr

/-- The two per-frame counters bumped by `INCSTAT` in `HandleEvent`. -/
inductive Stat where
  | num_efb_pokes
  | num_efb_peeks
  deriving DecidableEq, Repr

/-- What one run of `HandleEvent` does to the outside world, one constructor
per statement form of the `switch`: a counter bump, a call into a video
object, or a write through the output pointer of the event.  Fetching the
object (`Core::System::GetInstance().GetFifo()`) is not recorded. -/
inductive Effect where
  | INCSTAT (c : Stat)
  | PokeColor (x y : Int) (data : Nat)
  | PokeDepth (x y : Int) (data : Nat)
  | PeekColor (x y : Int)
  | PeekDepth (x y : Int)
  | ViSwap (xfbAddr fbWidth fbStride fbHeight time presentation_time : Nat)
  | BBoxGet (index : Int)
  | ResetVideoBuffer
  | FlushResults
  | VideoCommon_DoState (p : Loc)
  | store (data : Loc) (value : Nat)
  deriving DecidableEq, Repr

/-- The values the video objects return to `HandleEvent`. -/
structure Backend where
  PeekColor : Int → Int → Nat
  PeekDepth : Int → Int → Nat
  BBoxGet : Int → Nat

/-- The `switch (e.type)` of `AsyncRequests::HandleEvent`. -/
def HandleEvent (g : Backend) : Event → List Effect
  | .EFB_POKE_COLOR x y data =>
      [.INCSTAT .num_efb_pokes, .PokeColor x y data]
  | .EFB_POKE_Z x y data =>
      [.INCSTAT .num_efb_pokes, .PokeDepth x y data]
  | .EFB_PEEK_COLOR x y data =>
      [.INCSTAT .num_efb_peeks, .PeekColor x y, .store data (g.PeekColor x y)]
  | .EFB_PEEK_Z x y data =>
      [.INCSTAT .num_efb_peeks, .PeekDepth x y, .store data (g.PeekDepth x y)]
  | .SWAP_EVENT xfbAddr fbWidth fbStride fbHeight time presentation_time =>
      [.ViSwap xfbAddr fbWidth fbStride fbHeight time presentation_time]
  | .BBOX_READ index data =>
      [.BBoxGet index, .store data (g.BBoxGet index)]
  | .FIFO_RESET => [.ResetVideoBuffer]
  | .PERF_QUERY => [.FlushResults]
  | .DO_SAVE_STATE p => [.VideoCommon_DoState p]

/-- Calls into a video object, as opposed to counter bumps and pointer
writes. -/
def Effect.isCall : Effect → Bool
  | .INCSTAT _ => false
  | .store _ _ => false
  | _ => true

/-- Writes through an output pointer. -/
def Effect.isStore : Effect → Bool
  | .store _ _ => true
  | _ => false

/-- The calls made by a run of `HandleEvent`, in order. -/
def callsOf (fx : List Effect) : List Effect := fx.filter Effect.isCall

/-- The pointer writes made by a run of `HandleEvent`, in order. -/
def storesOf (fx : List Effect) : List Effect := fx.filter Effect.isStore

/-- The interface table of the specification, read as a function: the one
collaborator operation assigned to each tag, applied to the fields of the
event.  Written from the table, to be compared with `HandleEvent`. -/
def interfaceCall : Event → Effect
  | .EFB_POKE_COLOR x y value => .PokeColor x y value
  | .EFB_POKE_Z x y value => .PokeDepth x y value
  | .EFB_PEEK_COLOR x y _ => .PeekColor x y
  | .EFB_PEEK_Z x y _ => .PeekDepth x y
  | .SWAP_EVENT addr width stride height timestamp presentTime =>
      .ViSwap addr width stride height timestamp presentTime
  | .BBOX_READ index _ => .BBoxGet index
  | .FIFO_RESET => .ResetVideoBuffer
  | .PERF_QUERY => .FlushResults
  | .DO_SAVE_STATE serializer => .VideoCommon_DoState serializer

/-- The `out ← ...` column of the interface table: what is written to the
output location of the event, if the tag has one. -/
def interfaceOutput (g : Backend) : Event → List Effect
  | .EFB_PEEK_COLOR x y out => [.store out (g.PeekColor x y)]
  | .EFB_PEEK_Z x y out => [.store out (g.PeekDepth x y)]
  | .BBOX_READ index out => [.store out (g.BBoxGet index)]
  | _ => []

/-! ## The relay state and its lock-held sections -/

/-- The members of `AsyncRequests` guarded by `m_mutex`.  `m_queue` is the
`std::queue`, front first. -/
structure Relay where
  m_queue : List Event
  m_enable : Bool
  m_passthrough : Bool
  m_wake_me_up_again : Bool
  m_empty : Bool
  deriving DecidableEq, Repr

/-- A call the relay makes out of itself. -/
inductive Op where
  | Flush
  | HandleEvent (e : Event)
  | RunGpu
  | notify_all
  deriving DecidableEq, Repr

/-- The events `HandleEvent` was invoked on, in order of invocation. -/
def handled : List Op → List Event
  | [] => []
  | .HandleEvent e :: ops => e :: handled ops
  | _ :: ops => handled ops

/-- Whether `m_cond.notify_all()` occurs among the calls. -/
def notifies (ops : List Op) : Bool := ops.contains .notify_all

/-- The outcome of the lock-held section of `PushEvent`: the new relay
state, the calls made, and whether the caller is left blocked in
`m_cond.wait`. -/
structure Pushed where
  relay : Relay
  ops : List Op
  waits : Bool
  deriving DecidableEq, Repr

/-- The predicate wait `m_cond.wait(lock, [this] { return m_queue.empty(); })`
at its first test: the caller blocks exactly when the queue is not empty. -/
def blocksOnEntry (r : Relay) : Bool := !r.m_queue.isEmpty

/-- The body of `AsyncRequests::PushEvent` up to its return or its wait. -/
def PushEvent (event : Event) (blocking : Bool) (r : Relay) : Pushed :=
  if r.m_passthrough then
    { relay := r, ops := [.HandleEvent event], waits := false }
  else
    let r1 := { r with m_empty := false,
                       m_wake_me_up_again := r.m_wake_me_up_again || blocking }
    if !r1.m_enable then
      { relay := r1, ops := [], waits := false }
    else
      let r2 := { r1 with m_queue := r1.m_queue ++ [event] }
      { relay := r2, ops := [.RunGpu], waits := blocking && blocksOnEntry r2 }

/-- The loop `while (!m_queue.empty()) m_queue.pop();` of `SetEnable`. -/
def flushQueue : List Event → List Event
  | [] => []
  | _ :: q => flushQueue q

/-- The body of `AsyncRequests::SetEnable`. -/
def SetEnable (enable : Bool) (r : Relay) : Relay × List Op :=
  let r1 := { r with m_enable := enable }
  if !enable then
    let r2 := { r1 with m_queue := flushQueue r1.m_queue }
    (r2, if r2.m_wake_me_up_again then [.notify_all] else [])
  else
    (r1, [])

/-- The body of `AsyncRequests::SetPassthrough`. -/
def SetPassthrough (enable : Bool) (r : Relay) : Relay :=
  { r with m_passthrough := enable }

/-- The tail of `PullEventsInternal`, after the loop:
`if (m_wake_me_up_again) { m_wake_me_up_again = false; m_cond.notify_all(); }`. -/
def wakeWaiters (r : Relay) : Relay × List Op :=
  if r.m_wake_me_up_again then
    ({ r with m_wake_me_up_again := false }, [.notify_all])
  else
    (r, [])

/-- The `while` loop of `PullEventsInternal` when no other thread takes the
lock while a handler runs: front, handler, pop, until the queue is empty.
Returns the handler calls and the queue left. -/
def drainLoop : List Event → List Op × List Event
  | [] => ([], [])
  | e :: q => (.HandleEvent e :: (drainLoop q).1, (drainLoop q).2)

/-- The whole of `AsyncRequests::PullEventsInternal`, run without another
thread interleaving. -/
def PullEventsInternal (r : Relay) : Relay × List Op :=
  let r1 := { r with m_empty := true }
  let r2 := { r1 with m_queue := (drainLoop r1.m_queue).2 }
  ((wakeWaiters r2).1, .Flush :: (drainLoop r1.m_queue).1 ++ (wakeWaiters r2).2)

/-- A run of `PushEvent` calls, one after the other, each given with its
`blocking` argument; the relay state after the last lock-held section and
all calls made. -/
def pushAll : List (Event × Bool) → Relay → Relay × List Op
  | [], r => (r, [])
  | (e, b) :: rest, r =>
      ((pushAll rest (PushEvent e b r).relay).1,
       (PushEvent e b r).ops ++ (pushAll rest (PushEvent e b r).relay).2)

/-- Non-blocking submits of the given events. -/
def nonBlocking (es : List Event) : List (Event × Bool) := es.map (fun e => (e, false))

/-! ## Interleavings

One step is one lock-held section.  `PullEventsInternal` releases the lock
around the handler call, so it is cut in three: entering (flush, lock,
`m_empty.Set()`, first loop test), the handler call itself, and re-locking
(`lock.lock()`, `m_queue.pop()`, next loop test and, on exit, the wake-up). -/

/-- Where the thread that runs `PullEventsInternal` stands. -/
inductive Consumer where
  | idle
  | running (e : Event)
  | finished (e : Event)
  deriving DecidableEq, Repr

/-- The call in which a thread sits in `m_cond.wait`. -/
inductive WaitSite where
  | inPushEvent (event : Event)
  | inWaitForEmptyQueue
  deriving DecidableEq, Repr

/-- A thread inside `m_cond.wait`: asleep on the condition variable, or woken
(`notified`) and about to take the lock again to test the predicate. -/
structure Waiter where
  tid : Nat
  site : WaitSite
  notified : Bool
  deriving DecidableEq, Repr

/-- The relay together with the program counters of its threads and the
history of the run: `ops` are all calls made so far, oldest first, and
`pushed` are all events that went through `m_queue.push`, oldest first. -/
structure Sys where
  relay : Relay
  consumer : Consumer
  waiters : List Waiter
  ops : List Op
  pushed : List Event
  deriving DecidableEq, Repr

/-- A system at rest around the given relay state. -/
def Sys.start (r : Relay) : Sys :=
  { relay := r, consumer := .idle, waiters := [], ops := [], pushed := [] }

/-- The steps of the interleaving semantics. `t` names the calling thread. -/
inductive Action where
  | PushEvent (t : Nat) (event : Event) (blocking : Bool)
  | WaitForEmptyQueue (t : Nat)
  | SetEnable (enable : Bool)
  | SetPassthrough (enable : Bool)
  | PullEventsInternal
  | HandleEvent
  | relock
  | spurious (t : Nat)
  | reacquire (t : Nat)
  deriving DecidableEq, Repr

/-- Why a step does not yield a next state: the action is not available in
this state, or the code runs `m_queue.pop()` on an empty `std::queue`, which
has no defined behaviour. -/
inductive Fault where
  | noStep
  | popOnEmptyQueue
  deriving DecidableEq, Repr

/-- Whether thread `t` is inside `m_cond.wait`. -/
def isWaiting (t : Nat) (ws : List Waiter) : Bool := ws.any (fun w => w.tid == t)

/-- Whether thread `t` is inside `m_cond.wait` and has been woken. -/
def isWoken (t : Nat) (ws : List Waiter) : Bool :=
  ws.any (fun w => w.tid == t && w.notified)

/-- The effect of `m_cond.notify_all()`: every waiter is woken. -/
def notifyAll (ws : List Waiter) : List Waiter :=
  ws.map (fun w => { w with notified := true })

/-- The waiters after a lock-held section that made the calls `ops`. -/
def afterOps (ops : List Op) (ws : List Waiter) : List Waiter :=
  if notifies ops then notifyAll ws else ws

/-- Thread `t` wakes up. -/
def wakeOne (t : Nat) (ws : List Waiter) : List Waiter :=
  ws.map (fun w => if w.tid == t then { w with notified := true } else w)

/-- Thread `t` found the predicate false and sleeps again. -/
def sleepAgain (t : Nat) (ws : List Waiter) : List Waiter :=
  ws.map (fun w => if w.tid == t then { w with notified := false } else w)

/-- Thread `t` found the predicate true and leaves `m_cond.wait`. -/
def leave (t : Nat) (ws : List Waiter) : List Waiter :=
  ws.filter (fun w => !(w.tid == t))

/-- The events that `PushEvent(event, _)` appends to `m_queue` in relay state
`r`: the event itself when the call gets as far as `m_queue.push(event)`. -/
def enqueuedBy (event : Event) (r : Relay) : List Event :=
  if r.m_passthrough then [] else if !r.m_enable then [] else [event]

/-- The test `while (!m_queue.empty())` with what follows it under the same
lock: either `Event e = m_queue.front(); lock.unlock();` or the exit of the
loop with the wake-up of the waiters. -/
def loopTest (r : Relay) : Relay × List Op × Consumer :=
  match r.m_queue with
  | e :: _ => (r, [], .running e)
  | [] => ((wakeWaiters r).1, (wakeWaiters r).2, .idle)

/-- One step of the system. -/
def step (a : Action) (s : Sys) : Except Fault Sys :=
  match a with
  | .PushEvent t event blocking =>
      if isWaiting t s.waiters then .error .noStep
      else
        let p := PushEvent event blocking s.relay
        .ok { s with
              relay := p.relay
              ops := s.ops ++ p.ops
              pushed := s.pushed ++ enqueuedBy event s.relay
              waiters := if p.waits then s.waiters ++ [⟨t, .inPushEvent event, false⟩]
                         else s.waiters }
  | .WaitForEmptyQueue t =>
      if isWaiting t s.waiters then .error .noStep
      else
        .ok { s with
              waiters := if blocksOnEntry s.relay
                         then s.waiters ++ [⟨t, .inWaitForEmptyQueue, false⟩]
                         else s.waiters }
  | .SetEnable enable =>
      .ok { s with
            relay := (SetEnable enable s.relay).1
            ops := s.ops ++ (SetEnable enable s.relay).2
            waiters := afterOps (SetEnable enable s.relay).2 s.waiters }
  | .SetPassthrough enable =>
      .ok { s with relay := SetPassthrough enable s.relay }
  | .PullEventsInternal =>
      match s.consumer with
      | .idle =>
          let t := loopTest { s.relay with m_empty := true }
          .ok { s with
                relay := t.1
                ops := s.ops ++ .Flush :: t.2.1
                consumer := t.2.2
                waiters := afterOps t.2.1 s.waiters }
      | _ => .error .noStep
  | .HandleEvent =>
      match s.consumer with
      | .running e =>
          .ok { s with ops := s.ops ++ [.HandleEvent e], consumer := .finished e }
      | _ => .error .noStep
  | .relock =>
      match s.consumer with
      | .finished _ =>
          match s.relay.m_queue with
          | [] => .error .popOnEmptyQueue
          | _ :: q =>
              let t := loopTest { s.relay with m_queue := q }
              .ok { s with
                    relay := t.1
                    ops := s.ops ++ t.2.1
                    consumer := t.2.2
                    waiters := afterOps t.2.1 s.waiters }
      | _ => .error .noStep
  | .spurious t =>
      if isWaiting t s.waiters then .ok { s with waiters := wakeOne t s.waiters }
      else .error .noStep
  | .reacquire t =>
      if isWoken t s.waiters then
        .ok { s with
              waiters := if blocksOnEntry s.relay then sleepAgain t s.waiters
                         else leave t s.waiters }
      else .error .noStep

/-- A schedule run from a state, step after step. -/
def run : List Action → Sys → Except Fault Sys
  | [], s => .ok s
  | a :: rest, s =>
      match step a s with
      | .ok s1 => run rest s1
      | .error f => .error f

/-- The steps that neither disable the relay nor switch passthrough on. -/
def keepsMode : Action → Bool
  | .SetEnable enable => enable
  | .SetPassthrough enable => !enable
  | _ => true

/-- The handler call and the re-lock, once per entry of the queue. -/
def handlerSteps : List Event → List Action
  | [] => []
  | _ :: q => .HandleEvent :: .relock :: handlerSteps q

/-- The schedule of a `PullEventsInternal` that no other thread interrupts,
on a queue of the given content: enter, then handler and re-lock per entry. -/
def drainSchedule (q : List Event) : List Action := .PullEventsInternal :: handlerSteps q

/-! ## Invariants of the interleavings -/

/-- The thread and call of every waiter. -/
def sitesOf (ws : List Waiter) : List (Nat × WaitSite) := ws.map (fun w => (w.tid, w.site))

/-- What holds in every state of a run that starts at rest on an enabled,
non-passthrough relay with an empty queue and never disables it: the events
pushed so far are those handled followed by those queued, the entry being
handled or just handled is still at the front of the queue, and a thread
waiting in `PushEvent` has its event among those pushed. -/
def Inv (s : Sys) : Prop :=
  s.relay.m_enable = true ∧ s.relay.m_passthrough = false ∧
  (match s.consumer with
   | .idle => handled s.ops ++ s.relay.m_queue = s.pushed
   | .running e =>
       handled s.ops ++ s.relay.m_queue = s.pushed ∧ ∃ q, s.relay.m_queue = e :: q
   | .finished e =>
       ∃ h q, handled s.ops = h ++ [e] ∧ s.relay.m_queue = e :: q ∧ h ++ e :: q = s.pushed) ∧
  ∀ t e, (t, WaitSite.inPushEvent e) ∈ sitesOf s.waiters → e ∈ s.pushed

/-! ## Concrete states and schedules -/

/-- An enabled relay, not in passthrough, with an empty queue and no wake-up
pending. -/
def relay0 : Relay :=
  { m_queue := [], m_enable := true, m_passthrough := false,
    m_wake_me_up_again := false, m_empty := true }

/-- A disabled relay, not in passthrough, with an empty queue. -/
def relayOff : Relay :=
  { m_queue := [], m_enable := false, m_passthrough := false,
    m_wake_me_up_again := false, m_empty := true }

/-- A colour poke. -/
def poke1 : Event := .EFB_POKE_COLOR 3 4 255

/-- A depth poke. -/
def poke2 : Event := .EFB_POKE_Z 5 6 1

/-- A swap. -/
def swap1 : Event := .SWAP_EVENT 4096 640 640 480 7 9

/-- A disabled relay in passthrough whose queue holds an entry. -/
def relayThrough : Relay :=
  { m_queue := [poke2], m_enable := false, m_passthrough := true,
    m_wake_me_up_again := false, m_empty := false }

/-- Three pokes, then a swap. -/
def threePokesOneSwap : List Event := [poke1, poke2, poke1, swap1]

/-- The relay state a blocking `PushEvent` leaves behind on `relayOff`: queue
empty, wake-me-up-again raised, empty indicator cleared. -/
def relayOffPushed : Relay := (PushEvent poke1 true relayOff).relay

/-- A poke is submitted, a swap is submitted blocking by thread 1, and the
consumer drains both. -/
def swapSchedule : List Action :=
  [.PushEvent 0 poke1 false, .PushEvent 1 swap1 true, .PullEventsInternal,
   .HandleEvent, .relock, .HandleEvent, .relock]

/-- The waiter of thread 1 in `swapSchedule`, once notified. -/
def swapWaiter : Waiter := { tid := 1, site := .inPushEvent swap1, notified := true }

/-- The state `swapSchedule` ends in. -/
def swapDrained : Sys :=
  { relay := relay0
    consumer := .idle
    waiters := [swapWaiter]
    ops := [.RunGpu, .RunGpu, .Flush, .HandleEvent poke1, .HandleEvent swap1, .notify_all]
    pushed := [poke1, swap1] }

/-- The consumer holds the front entry with the lock released, the relay is
disabled under it, and the handler returns. -/
def disableMidHandler : List Action :=
  [.PushEvent 0 poke1 false, .PullEventsInternal, .SetEnable false, .HandleEvent]

/-- As `disableMidHandler`, with the relay enabled again and a new entry
pushed before the handler returns. -/
def refillMidHandler : List Action :=
  [.PushEvent 0 poke1 false, .PullEventsInternal, .SetEnable false, .SetEnable true,
   .PushEvent 0 swap1 false, .HandleEvent]

/-- A non-blocking `PushEvent` by thread 1, then `WaitForEmptyQueue` by
thread 0. -/
def pushThenWait : List Action := [.PushEvent 1 poke1 false, .WaitForEmptyQueue 0]

/-- Thread 0 submits blocking and is notified by the drain; thread 1 refills
the queue without blocking before thread 0 has the lock back. -/
def refillBeforeRecheck : List Action :=
  [.PushEvent 0 poke1 true, .PullEventsInternal, .HandleEvent, .relock,
   .PushEvent 1 swap1 false, .reacquire 0]

/-- One uninterrupted drain of a queue of one entry. -/
def drainOne : List Action := [.PullEventsInternal, .HandleEvent, .relock]

/-- Whether some thread is asleep in the queue-empty wait. -/
def someoneAsleep (s : Sys) : Bool := s.waiters.any (fun w => !w.notified)

/-! ## Facts about the lock-held sections -/

theorem handled_append (a b : List Op) : handled (a ++ b) = handled a ++ handled b := by
  induction a with
  | nil => rfl
  | cons o a ih => cases o <;> simp [handled, ih]

theorem handled_map_HandleEvent (q : List Event) : handled (q.map Op.HandleEvent) = q := by
  induction q with
  | nil => rfl
  | cons e q ih => simp [handled, ih]

theorem drainLoop_eq (q : List Event) : drainLoop q = (q.map Op.HandleEvent, []) := by
  induction q with
  | nil => rfl
  | cons e q ih => simp [drainLoop, ih]

theorem flushQueue_eq (q : List Event) : flushQueue q = [] := by
  induction q with
  | nil => rfl
  | cons e q ih => simpa [flushQueue] using ih

theorem handled_wakeWaiters (r : Relay) : handled (wakeWaiters r).2 = [] := by
  unfold wakeWaiters; split <;> rfl

theorem wakeWaiters_queue (r : Relay) : (wakeWaiters r).1.m_queue = r.m_queue := by
  unfold wakeWaiters; split <;> rfl

theorem handled_PullEventsInternal (r : Relay) :
    handled (PullEventsInternal r).2 = r.m_queue := by
  simp [PullEventsInternal, drainLoop_eq, handled, handled_append, handled_map_HandleEvent,
    handled_wakeWaiters]

theorem PullEventsInternal_queue (r : Relay) : (PullEventsInternal r).1.m_queue = [] := by
  simp [PullEventsInternal, drainLoop_eq, wakeWaiters_queue]

theorem PushEvent_queued (e : Event) (b : Bool) (r : Relay)
    (he : r.m_enable = true) (hp : r.m_passthrough = false) :
    PushEvent e b r =
      { relay := { r with m_queue := r.m_queue ++ [e], m_empty := false,
                          m_wake_me_up_again := r.m_wake_me_up_again || b },
        ops := [.RunGpu], waits := b } := by
  simp [PushEvent, he, hp, blocksOnEntry]

theorem pushAll_queued (subs : List (Event × Bool)) (r : Relay)
    (he : r.m_enable = true) (hp : r.m_passthrough = false) :
    (pushAll subs r).1.m_queue = r.m_queue ++ subs.map Prod.fst ∧
    handled (pushAll subs r).2 = [] ∧
    (pushAll subs r).1.m_enable = true ∧ (pushAll subs r).1.m_passthrough = false := by
  induction subs generalizing r with
  | nil => simp [pushAll, handled, he, hp]
  | cons s subs ih =>
    obtain ⟨e, b⟩ := s
    have h := ih (PushEvent e b r).relay (by simp [PushEvent_queued e b r he hp, he])
      (by simp [PushEvent_queued e b r he hp, hp])
    simp only [pushAll, handled_append]
    refine ⟨?_, ?_, h.2.2.1, h.2.2.2⟩
    · rw [h.1]; simp [PushEvent_queued e b r he hp]
    · rw [h.2.1]; simp [PushEvent_queued e b r he hp, handled]

theorem map_fst_nonBlocking (es : List Event) : (nonBlocking es).map Prod.fst = es := by
  induction es with
  | nil => rfl
  | cons e es ih => simpa [nonBlocking] using ih

/-! ## The contracts of the single calls -/

/-- C7. Exhaustive dispatch: for every event, the calls `HandleEvent` makes
into the video objects are exactly one call, the one the interface table
assigns to the tag of the event, with the fields of the event as arguments;
and the writes it makes through an output pointer are exactly those of the
table (the value read, for the two peeks and the bounding-box read, nothing
for the other six tags).  The counter bumps of the pokes and peeks are neither. -/
theorem HandleEvent_exhaustive_dispatch (g : Backend) (e : Event) :
    callsOf (HandleEvent g e) = [interfaceCall e] ∧
    storesOf (HandleEvent g e) = interfaceOutput g e := by
  cases e <;> exact ⟨rfl, rfl⟩

/-- C3. Passthrough bypass: with `m_passthrough` set, `PushEvent(e, blocking)`
invokes `HandleEvent(e)` once and makes no other call, does not wait, and
returns the relay state it found (queue, enabled flag, wake-me-up-again flag
and empty indicator included), whatever `blocking`, the enabled flag and the
queue are. -/
theorem PushEvent_passthrough_bypass (e : Event) (blocking : Bool) (r : Relay)
    (hp : r.m_passthrough = true) :
    PushEvent e blocking r = { relay := r, ops := [.HandleEvent e], waits := false } := by
  simp [PushEvent, hp]

/-- C4. Silent drop: on a relay that is disabled and not in passthrough,
`PushEvent(e, blocking)` returns without waiting, makes no call at all (so
invokes no handler) and leaves `m_queue` as it was, for both values of
`blocking`. -/
theorem PushEvent_disabled_is_dropped (e : Event) (blocking : Bool) (r : Relay)
    (hd : r.m_enable = false) (hp : r.m_passthrough = false) :
    (PushEvent e blocking r).waits = false ∧
    (PushEvent e blocking r).ops = [] ∧
    (PushEvent e blocking r).relay.m_queue = r.m_queue := by
  simp [PushEvent, hd, hp]

/-- C5. Disable-drop: in every relay state, whatever events its queue holds,
`SetEnable(false)` leaves the queue empty and invokes no handler, and a
`PullEventsInternal` run after it invokes no handler either. -/
theorem SetEnable_false_drops_queue (r : Relay) :
    (SetEnable false r).1.m_queue = [] ∧
    handled (SetEnable false r).2 = [] ∧
    handled (PullEventsInternal (SetEnable false r).1).2 = [] := by
  have hq : (SetEnable false r).1.m_queue = [] := by simp [SetEnable, flushQueue_eq]
  refine ⟨hq, ?_, ?_⟩
  · simp only [SetEnable]
    cases r.m_wake_me_up_again <;> rfl
  · rw [handled_PullEventsInternal, hq]

/-- C6, as the code has it. On an empty queue `PullEventsInternal` invokes no
handler and leaves the queue, the enabled flag and the passthrough flag as
they were; it does call the pipeline flush, it sets the empty indicator, and
it lowers the wake-me-up-again flag, notifying all waiters when the flag was
raised.  Hence it changes nothing in the relay state exactly when the empty
indicator was set and the flag was down. -/
theorem PullEventsInternal_on_empty_queue (r : Relay) (hq : r.m_queue = []) :
    (PullEventsInternal r).1 = { r with m_empty := true, m_wake_me_up_again := false } ∧
    (PullEventsInternal r).2 = .Flush :: (if r.m_wake_me_up_again then [.notify_all] else []) ∧
    handled (PullEventsInternal r).2 = [] ∧
    ((PullEventsInternal r).1 = r ↔ r.m_empty = true ∧ r.m_wake_me_up_again = false) := by
  obtain ⟨q, en, pt, wk, em⟩ := r
  simp only at hq
  subst hq
  cases wk <;> cases em <;> simp [PullEventsInternal, drainLoop, wakeWaiters, handled]

/-- C1. FIFO order: from an enabled, non-passthrough relay with an empty
queue, non-blocking `PushEvent` calls for `e1, ..., en` invoke no handler and
leave the queue holding `e1, ..., en`; one `PullEventsInternal` after them
invokes `HandleEvent` on exactly `e1, ..., en`, in that order, and leaves the
queue empty. -/
theorem PullEventsInternal_fifo_order (r : Relay) (es : List Event)
    (hq : r.m_queue = []) (he : r.m_enable = true) (hp : r.m_passthrough = false) :
    handled (pushAll (nonBlocking es) r).2 = [] ∧
    (pushAll (nonBlocking es) r).1.m_queue = es ∧
    handled (PullEventsInternal (pushAll (nonBlocking es) r).1).2 = es ∧
    (PullEventsInternal (pushAll (nonBlocking es) r).1).1.m_queue = [] := by
  have h := pushAll_queued (nonBlocking es) r he hp
  have hes : (pushAll (nonBlocking es) r).1.m_queue = es := by
    rw [h.1, hq, map_fst_nonBlocking]; rfl
  refine ⟨h.2.1, hes, ?_, PullEventsInternal_queue _⟩
  rw [handled_PullEventsInternal, hes]

/-- C9. Re-enable resumes: in every relay state not in passthrough,
`SetEnable(false)` then `SetEnable(true)` leave the relay enabled with an
empty queue and its other members untouched; `PushEvent` calls for
`e1, ..., en` after that (blocking or not) enqueue all of them in order
without invoking a handler, and a following `PullEventsInternal` invokes
`HandleEvent` on exactly `e1, ..., en` in order and leaves the queue empty. -/
theorem SetEnable_reenable_resumes (r : Relay) (subs : List (Event × Bool))
    (hp : r.m_passthrough = false) :
    (SetEnable true (SetEnable false r).1).1 = { r with m_queue := [], m_enable := true } ∧
    (pushAll subs (SetEnable true (SetEnable false r).1).1).1.m_queue = subs.map Prod.fst ∧
    handled (pushAll subs (SetEnable true (SetEnable false r).1).1).2 = [] ∧
    handled (PullEventsInternal (pushAll subs (SetEnable true (SetEnable false r).1).1).1).2
      = subs.map Prod.fst ∧
    (PullEventsInternal (pushAll subs (SetEnable true (SetEnable false r).1).1).1).1.m_queue
      = [] := by
  have h0 : (SetEnable true (SetEnable false r).1).1 = { r with m_queue := [], m_enable := true } := by
    simp [SetEnable, flushQueue_eq]
  rw [h0]
  have h := pushAll_queued subs { r with m_queue := [], m_enable := true } rfl hp
  have hes : (pushAll subs { r with m_queue := [], m_enable := true }).1.m_queue
      = subs.map Prod.fst := by
    rw [h.1]; simp
  refine ⟨rfl, hes, h.2.1, ?_, PullEventsInternal_queue _⟩
  rw [handled_PullEventsInternal, hes]

theorem sitesOf_notifyAll (ws : List Waiter) : sitesOf (notifyAll ws) = sitesOf ws := by
  simp [sitesOf, notifyAll, Function.comp_def]

theorem sitesOf_afterOps (ops : List Op) (ws : List Waiter) :
    sitesOf (afterOps ops ws) = sitesOf ws := by
  unfold afterOps; split
  · exact sitesOf_notifyAll ws
  · rfl

theorem sitesOf_wakeOne (t : Nat) (ws : List Waiter) : sitesOf (wakeOne t ws) = sitesOf ws := by
  induction ws with
  | nil => rfl
  | cons w ws ih =>
    simp only [sitesOf, wakeOne, List.map_cons] at ih ⊢
    rw [ih]
    by_cases h : (w.tid == t) = true <;> simp [h]

theorem sitesOf_sleepAgain (t : Nat) (ws : List Waiter) :
    sitesOf (sleepAgain t ws) = sitesOf ws := by
  induction ws with
  | nil => rfl
  | cons w ws ih =>
    simp only [sitesOf, sleepAgain, List.map_cons] at ih ⊢
    rw [ih]
    by_cases h : (w.tid == t) = true <;> simp [h]

theorem mem_sitesOf_leave (t : Nat) (ws : List Waiter) (x : Nat × WaitSite)
    (h : x ∈ sitesOf (leave t ws)) : x ∈ sitesOf ws := by
  simp only [sitesOf, leave, List.mem_map, List.mem_filter] at h ⊢
  obtain ⟨w, ⟨hw, _⟩, rfl⟩ := h
  exact ⟨w, hw, rfl⟩

theorem isWaiting_sleepAgain (t : Nat) (ws : List Waiter) :
    isWaiting t (sleepAgain t ws) = isWaiting t ws := by
  induction ws with
  | nil => rfl
  | cons w ws ih =>
    simp only [isWaiting, sleepAgain, List.map_cons, List.any_cons] at ih ⊢
    rw [ih]
    by_cases h : (w.tid == t) = true <;> simp [h]

theorem isWaiting_of_mem (w : Waiter) (ws : List Waiter) (h : w ∈ ws) :
    isWaiting w.tid ws = true := by
  simp only [isWaiting, List.any_eq_true]
  exact ⟨w, h, by simp⟩

theorem wakeWaiters_enable (r : Relay) : (wakeWaiters r).1.m_enable = r.m_enable := by
  unfold wakeWaiters; split <;> rfl

theorem wakeWaiters_passthrough (r : Relay) :
    (wakeWaiters r).1.m_passthrough = r.m_passthrough := by
  unfold wakeWaiters; split <;> rfl

/-- The loop test leaves the queue, the enabled flag and the passthrough flag
alone, invokes no handler, and goes on to the front entry or to idle. -/
theorem loopTest_spec (r : Relay) :
    (loopTest r).1.m_queue = r.m_queue ∧ (loopTest r).1.m_enable = r.m_enable ∧
    (loopTest r).1.m_passthrough = r.m_passthrough ∧ handled (loopTest r).2.1 = [] ∧
    ((r.m_queue = [] ∧ (loopTest r).2.2 = .idle) ∨
     ∃ e q, r.m_queue = e :: q ∧ (loopTest r).2.2 = .running e) := by
  unfold loopTest
  split
  · next e q h => exact ⟨rfl, rfl, rfl, rfl, Or.inr ⟨e, q, h, rfl⟩⟩
  · next h =>
    exact ⟨wakeWaiters_queue r, wakeWaiters_enable r, wakeWaiters_passthrough r,
      handled_wakeWaiters r, Or.inl ⟨h, rfl⟩⟩

theorem Inv_start (r : Relay) (hq : r.m_queue = []) (he : r.m_enable = true)
    (hp : r.m_passthrough = false) : Inv (Sys.start r) := by
  refine ⟨he, hp, ?_, ?_⟩
  · simp [Sys.start, handled, hq]
  · intro t e h
    simp [Sys.start, sitesOf] at h

theorem Inv_step (a : Action) (s s1 : Sys) (hm : keepsMode a = true)
    (hs : step a s = .ok s1) (hi : Inv s) : Inv s1 := by
  obtain ⟨he, hp, hc, hw⟩ := hi
  cases a with
  | PushEvent t event blocking =>
    simp only [step] at hs
    split at hs
    · cases hs
    · cases hs
      have hpe := PushEvent_queued event blocking s.relay he hp
      refine ⟨by simp [hpe, he], by simp [hpe, hp], ?_, ?_⟩
      · simp only [hpe, enqueuedBy, he, hp, handled_append, handled]
        cases hcons : s.consumer with
        | idle =>
          rw [hcons] at hc
          simp only [Bool.false_eq_true, if_false, Bool.not_true, List.append_nil] at hc ⊢
          rw [← hc, List.append_assoc]
        | running e =>
          rw [hcons] at hc
          simp only [Bool.false_eq_true, if_false, Bool.not_true, List.append_nil] at hc ⊢
          obtain ⟨h1, q, h2⟩ := hc
          refine ⟨by rw [← h1, List.append_assoc], q ++ [event], by rw [h2]; rfl⟩
        | finished e =>
          rw [hcons] at hc
          simp only [Bool.false_eq_true, if_false, Bool.not_true, List.append_nil] at hc ⊢
          obtain ⟨h, q, h1, h2, h3⟩ := hc
          refine ⟨h, q ++ [event], h1, by rw [h2]; rfl, ?_⟩
          rw [← h3]; simp
      · intro t1 e1 hmem
        simp only [hpe, enqueuedBy, he, hp] at hmem ⊢
        simp only [Bool.false_eq_true, if_false, Bool.not_true, List.mem_append,
          List.mem_singleton] at hmem ⊢
        cases blocking with
        | false =>
          simp only [Bool.false_eq_true, if_false] at hmem
          exact Or.inl (hw t1 e1 hmem)
        | true =>
          simp only [if_true, sitesOf, List.map_append, List.mem_append, List.map_cons,
            List.map_nil, List.mem_singleton, Prod.mk.injEq, WaitSite.inPushEvent.injEq] at hmem
          rcases hmem with h | ⟨_, h⟩
          · exact Or.inl (hw t1 e1 h)
          · exact Or.inr h
  | WaitForEmptyQueue t =>
    simp only [step] at hs
    split at hs
    · cases hs
    · cases hs
      refine ⟨he, hp, hc, ?_⟩
      intro t1 e1 hmem
      simp only at hmem
      split at hmem
      · simp only [sitesOf, List.map_append, List.mem_append, List.map_cons, List.map_nil,
          List.mem_singleton, Prod.mk.injEq] at hmem
        rcases hmem with h | ⟨_, h⟩
        · exact hw t1 e1 h
        · cases h
      · exact hw t1 e1 hmem
  | SetEnable enable =>
    simp only [keepsMode] at hm
    subst hm
    simp only [step, SetEnable] at hs
    cases hs
    refine ⟨rfl, hp, ?_, ?_⟩
    · simpa using hc
    · intro t1 e1 hmem
      simp only [sitesOf_afterOps] at hmem
      exact hw t1 e1 hmem
  | SetPassthrough enable =>
    cases enable with
    | true => simp [keepsMode] at hm
    | false =>
      simp only [step, SetPassthrough] at hs
      cases hs
      exact ⟨he, rfl, hc, hw⟩
  | PullEventsInternal =>
    simp only [step] at hs
    cases hcons : s.consumer with
    | idle =>
      rw [hcons] at hs hc
      simp only at hs hc
      cases hs
      obtain ⟨lq, le, lp, lh, lc⟩ := loopTest_spec { s.relay with m_empty := true }
      refine ⟨le.trans he, lp.trans hp, ?_, ?_⟩
      · simp only [handled_append, handled, lh, List.append_nil, lq]
        rcases lc with ⟨_, hc2⟩ | ⟨e, q, hq, hc2⟩
        · rw [hc2]; exact hc
        · rw [hc2]; exact ⟨hc, q, hq⟩
      · intro t1 e1 hmem
        simp only [sitesOf_afterOps] at hmem
        exact hw t1 e1 hmem
    | running e => rw [hcons] at hs; cases hs
    | finished e => rw [hcons] at hs; cases hs
  | HandleEvent =>
    simp only [step] at hs
    cases hcons : s.consumer with
    | idle => rw [hcons] at hs; cases hs
    | running e =>
      rw [hcons] at hs hc
      simp only at hs hc
      cases hs
      obtain ⟨h1, q, h2⟩ := hc
      refine ⟨he, hp, ?_, hw⟩
      refine ⟨handled s.ops, q, by simp [handled_append, handled], h2, ?_⟩
      rw [← h1, h2]
    | finished e => rw [hcons] at hs; cases hs
  | relock =>
    simp only [step] at hs
    cases hcons : s.consumer with
    | idle => rw [hcons] at hs; cases hs
    | running e => rw [hcons] at hs; cases hs
    | finished e =>
      rw [hcons] at hs hc
      simp only at hs hc
      obtain ⟨h, q, h1, h2, h3⟩ := hc
      rw [h2] at hs
      simp only at hs
      cases hs
      obtain ⟨lq, le, lp, lh, lc⟩ := loopTest_spec { s.relay with m_queue := q }
      refine ⟨le.trans he, lp.trans hp, ?_, ?_⟩
      · simp only [handled_append, lh, List.append_nil, lq, h1]
        have hpush : h ++ [e] ++ q = s.pushed := by rw [← h3]; simp
        rcases lc with ⟨_, hc2⟩ | ⟨e2, q2, hq, hc2⟩
        · rw [hc2]; exact hpush
        · rw [hc2]; exact ⟨hpush, q2, hq⟩
      · intro t1 e1 hmem
        simp only [sitesOf_afterOps] at hmem
        exact hw t1 e1 hmem
  | spurious t =>
    simp only [step] at hs
    split at hs
    · cases hs
      refine ⟨he, hp, hc, ?_⟩
      intro t1 e1 hmem
      simp only [sitesOf_wakeOne] at hmem
      exact hw t1 e1 hmem
    · cases hs
  | reacquire t =>
    simp only [step] at hs
    split at hs
    · cases hs
      refine ⟨he, hp, hc, ?_⟩
      intro t1 e1 hmem
      simp only at hmem
      split at hmem
      · rw [sitesOf_sleepAgain] at hmem
        exact hw t1 e1 hmem
      · exact hw t1 e1 (mem_sitesOf_leave _ _ _ hmem)
    · cases hs

theorem Inv_run (sched : List Action) (s s1 : Sys)
    (hm : ∀ a ∈ sched, keepsMode a = true) (hs : run sched s = .ok s1) (hi : Inv s) :
    Inv s1 := by
  induction sched generalizing s with
  | nil => simp only [run] at hs; cases hs; exact hi
  | cons a rest ih =>
    simp only [run] at hs
    cases hstep : step a s with
    | error f => rw [hstep] at hs; cases hs
    | ok s2 =>
      rw [hstep] at hs
      exact ih s2 (fun b hb => hm b (List.mem_cons_of_mem _ hb)) hs
        (Inv_step a s s2 (hm a (List.mem_cons_self _ _)) hstep hi)

/-! ## Witnesses of the single-call contracts -/

/-- Witness of C1: three pokes followed by one swap are dispatched as poke,
poke, poke, swap. -/
theorem PullEventsInternal_fifo_order_witness :
    relay0.m_queue = [] ∧ relay0.m_enable = true ∧ relay0.m_passthrough = false ∧
    handled (PullEventsInternal (pushAll (nonBlocking threePokesOneSwap) relay0).1).2
      = [poke1, poke2, poke1, swap1] :=
  ⟨rfl, rfl, rfl, (PullEventsInternal_fifo_order relay0 threePokesOneSwap rfl rfl rfl).2.2.1⟩

/-- Witness of C3: a blocking submit on a disabled passthrough relay whose
queue is not empty. -/
theorem PushEvent_passthrough_bypass_witness :
    relayThrough.m_passthrough = true ∧
    PushEvent swap1 true relayThrough
      = { relay := relayThrough, ops := [.HandleEvent swap1], waits := false } :=
  ⟨rfl, PushEvent_passthrough_bypass swap1 true relayThrough rfl⟩

/-- Witness of C4: a blocking submit on `relayOff`. -/
theorem PushEvent_disabled_is_dropped_witness :
    relayOff.m_enable = false ∧ relayOff.m_passthrough = false ∧
    (PushEvent poke1 true relayOff).waits = false ∧
    (PushEvent poke1 true relayOff).ops = [] ∧
    (PushEvent poke1 true relayOff).relay.m_queue = relayOff.m_queue :=
  ⟨rfl, rfl, PushEvent_disabled_is_dropped poke1 true relayOff rfl rfl⟩

/-- Counterexample to C6 as stated: in the state a blocking `PushEvent`
leaves on a disabled relay the queue is empty, yet `PullEventsInternal` calls
the pipeline flush and `notify_all`, sets the empty indicator and lowers the
wake-me-up-again flag. -/
theorem drain_of_empty_queue_is_not_a_noop :
    relayOffPushed.m_queue = [] ∧
    relayOffPushed.m_wake_me_up_again = true ∧ relayOffPushed.m_empty = false ∧
    (PullEventsInternal relayOffPushed).2 = [.Flush, .notify_all] ∧
    (PullEventsInternal relayOffPushed).1.m_wake_me_up_again = false ∧
    (PullEventsInternal relayOffPushed).1.m_empty = true ∧
    PullEventsInternal relayOffPushed ≠ (relayOffPushed, []) := by
  decide

/-- Witness of C6 as amended, at the same state. -/
theorem PullEventsInternal_on_empty_queue_witness :
    relayOffPushed.m_queue = [] ∧
    (PullEventsInternal relayOffPushed).1
      = { relayOffPushed with m_empty := true, m_wake_me_up_again := false } ∧
    handled (PullEventsInternal relayOffPushed).2 = [] :=
  ⟨rfl, (PullEventsInternal_on_empty_queue relayOffPushed rfl).1,
    (PullEventsInternal_on_empty_queue relayOffPushed rfl).2.2.1⟩

/-- Witness of C9: a relay with a queued entry is disabled and enabled again,
then a poke and a blocking swap are submitted and drained. -/
theorem SetEnable_reenable_resumes_witness :
    ({ relay0 with m_queue := [poke2] } : Relay).m_passthrough = false ∧
    handled (PullEventsInternal (pushAll [(poke1, false), (swap1, true)]
      (SetEnable true (SetEnable false { relay0 with m_queue := [poke2] }).1).1).1).2
      = [poke1, swap1] :=
  ⟨rfl, (SetEnable_reenable_resumes { relay0 with m_queue := [poke2] }
    [(poke1, false), (swap1, true)] rfl).2.2.2.1⟩

/-! ## The blocking contract -/

/-- C2. Blocking contract: take any run that starts at rest on an enabled,
non-passthrough relay with an empty queue and in which the relay is never
disabled nor put in passthrough, whatever the interleaving of `PushEvent`,
`WaitForEmptyQueue`, wake-ups and the steps of `PullEventsInternal`.  When a
thread waiting in `PushEvent(e, true)` takes the lock back and leaves the
wait, the queue is empty, the consumer is outside its loop, the events
handled are exactly the events pushed so far, in order, and `e` is among
them; and a blocking `PushEvent` issued in the state it woke up in would
enter the wait rather than return. -/
theorem PushEvent_blocking_contract (r : Relay) (sched : List Action) (s s1 : Sys)
    (w : Waiter) (e : Event)
    (hq : r.m_queue = []) (he : r.m_enable = true) (hp : r.m_passthrough = false)
    (hm : ∀ a ∈ sched, keepsMode a = true)
    (hrun : run sched (Sys.start r) = .ok s)
    (hw : w ∈ s.waiters) (hsite : w.site = .inPushEvent e)
    (hstep : step (.reacquire w.tid) s = .ok s1)
    (hret : isWaiting w.tid s1.waiters = false) :
    (∀ e2, (PushEvent e2 true s.relay).waits = true) ∧
    s1.relay.m_queue = [] ∧ s1.consumer = .idle ∧
    handled s1.ops = s1.pushed ∧ e ∈ handled s1.ops := by
  obtain ⟨ie, ip, ic, iw⟩ := Inv_run sched _ s hm hrun (Inv_start r hq he hp)
  have hpush : e ∈ s.pushed := by
    apply iw w.tid e
    simp only [sitesOf, List.mem_map]
    exact ⟨w, hw, by rw [hsite]⟩
  simp only [step] at hstep
  split at hstep
  · cases hstep
    simp only at hret ⊢
    have hempty : s.relay.m_queue = [] := by
      by_contra hne
      have hb : blocksOnEntry s.relay = true := by
        cases hql : s.relay.m_queue with
        | nil => exact absurd hql hne
        | cons x q => simp [blocksOnEntry, hql]
      rw [if_pos hb, isWaiting_sleepAgain, isWaiting_of_mem w s.waiters hw] at hret
      cases hret
    refine ⟨fun e2 => by rw [PushEvent_queued e2 true s.relay ie ip], hempty, ?_⟩
    cases hcons : s.consumer with
    | idle =>
      rw [hcons] at ic
      simp only [hempty, List.append_nil] at ic
      exact ⟨rfl, ic, by rw [ic]; exact hpush⟩
    | running x =>
      rw [hcons] at ic
      obtain ⟨_, q, h2⟩ := ic
      rw [hempty] at h2; cases h2
    | finished x =>
      rw [hcons] at ic
      obtain ⟨_, q, _, h2, _⟩ := ic
      rw [hempty] at h2; cases h2
  · cases hstep

/-- Witness of C2: a poke, then a blocking swap by thread 1; the consumer
drains both and notifies; thread 1 leaves the wait with both handled. -/
theorem PushEvent_blocking_contract_witness :
    run swapSchedule (Sys.start relay0) = .ok swapDrained ∧
    step (.reacquire 1) swapDrained = .ok { swapDrained with waiters := [] } ∧
    handled swapDrained.ops = [poke1, swap1] ∧
    swap1 ∈ handled ({ swapDrained with waiters := [] } : Sys).ops :=
  ⟨rfl, rfl, rfl,
    (PushEvent_blocking_contract relay0 swapSchedule swapDrained
      { swapDrained with waiters := [] } swapWaiter swap1 rfl rfl rfl (by decide) rfl
      (by decide) rfl rfl rfl).2.2.2.2⟩

/-! ## The uninterrupted drain is the sequential function -/

theorem afterOps_nil (ws : List Waiter) : afterOps [] ws = ws := rfl

theorem run_handlerSteps (e : Event) (q : List Event) (s : Sys)
    (hc : s.consumer = .running e) (hq : s.relay.m_queue = e :: q) :
    run (handlerSteps (e :: q)) s =
      .ok { s with
            relay := (wakeWaiters { s.relay with m_queue := [] }).1
            consumer := .idle
            ops := s.ops ++ (e :: q).map Op.HandleEvent
                     ++ (wakeWaiters { s.relay with m_queue := [] }).2
            waiters := afterOps (wakeWaiters { s.relay with m_queue := [] }).2 s.waiters } := by
  induction q generalizing e s with
  | nil =>
    obtain ⟨r, c, ws, ops, ps⟩ := s
    obtain ⟨qu, en, pt, wk, em⟩ := r
    simp only at hc hq
    subst hc hq
    simp [handlerSteps, run, step, loopTest]
  | cons e2 q ih =>
    obtain ⟨r, c, ws, ops, ps⟩ := s
    obtain ⟨qu, en, pt, wk, em⟩ := r
    simp only at hc hq
    subst hc hq
    have h := ih e2
      { relay := ⟨e2 :: q, en, pt, wk, em⟩, consumer := .running e2, waiters := ws,
        ops := ops ++ [.HandleEvent e], pushed := ps } rfl rfl
    simp only [handlerSteps, run, step, loopTest, afterOps_nil, List.append_nil] at h ⊢
    rw [h]
    simp

/-- An uninterrupted `PullEventsInternal` in the interleaving semantics ends
in the relay state, and makes the calls, of the function
`PullEventsInternal`. -/
theorem run_drainSchedule (s : Sys) (hc : s.consumer = .idle) :
    run (drainSchedule s.relay.m_queue) s =
      .ok { s with
            relay := (PullEventsInternal s.relay).1
            ops := s.ops ++ (PullEventsInternal s.relay).2
            waiters := afterOps (PullEventsInternal s.relay).2 s.waiters } := by
  obtain ⟨r, c, ws, ops, ps⟩ := s
  obtain ⟨qu, en, pt, wk, em⟩ := r
  simp only at hc
  subst hc
  cases qu with
  | nil =>
    cases wk <;>
      simp [drainSchedule, handlerSteps, run, step, loopTest, PullEventsInternal, drainLoop,
        wakeWaiters, afterOps, notifies]
  | cons e q =>
    have h := run_handlerSteps e q
      { relay := ⟨e :: q, en, pt, wk, true⟩, consumer := .running e, waiters := ws,
        ops := ops ++ [.Flush], pushed := ps } rfl rfl
    simp only [drainSchedule, run, step, loopTest, afterOps_nil] at h ⊢
    rw [h]
    cases wk <;>
      simp [PullEventsInternal, drainLoop_eq, wakeWaiters, afterOps, notifies]

/-- In a run that never disables the relay, the entry at the front of the
queue when the consumer takes the lock back is the one just handled. -/
theorem relock_front_is_handled (r : Relay) (sched : List Action) (s : Sys) (e : Event)
    (hq : r.m_queue = []) (he : r.m_enable = true) (hp : r.m_passthrough = false)
    (hm : ∀ a ∈ sched, keepsMode a = true)
    (hrun : run sched (Sys.start r) = .ok s) (hc : s.consumer = .finished e) :
    ∃ q, s.relay.m_queue = e :: q := by
  obtain ⟨_, _, ic, _⟩ := Inv_run sched _ s hm hrun (Inv_start r hq he hp)
  rw [hc] at ic
  obtain ⟨_, q, _, h2, _⟩ := ic
  exact ⟨q, h2⟩

/-! ## Interleavings on which the code goes wrong -/

/-- C8, the code at the failing interleavings. When `SetEnable(false)` takes
the lock while the handler of the front entry runs, the consumer comes back
to an empty queue and runs `m_queue.pop()` on it; when the relay is enabled
again and a new entry pushed before the handler returns, the consumer pops
that new entry, whose handler never ran, and the queue is left empty with
only the first entry handled. -/
theorem relock_after_SetEnable_false_pops_wrong_entry :
    (∃ s, run disableMidHandler (Sys.start relay0) = .ok s ∧
      s.consumer = .finished poke1 ∧ s.relay.m_queue = [] ∧
      step .relock s = .error .popOnEmptyQueue) ∧
    (∃ s s1, run refillMidHandler (Sys.start relay0) = .ok s ∧
      s.consumer = .finished poke1 ∧ s.relay.m_queue = [swap1] ∧
      step .relock s = .ok s1 ∧
      s1.relay.m_queue = [] ∧ s1.consumer = .idle ∧
      handled s1.ops = [poke1] ∧ s1.pushed = [poke1, swap1]) :=
  ⟨⟨_, rfl, rfl, rfl, rfl⟩, ⟨_, _, rfl, rfl, rfl, rfl, rfl, rfl, rfl, rfl⟩⟩

/-- C10, the code at the failing interleavings. After a non-blocking
`PushEvent` a thread entering `WaitForEmptyQueue` sleeps on a non-empty queue
with the wake-me-up-again flag down; and a thread waiting in a blocking
`PushEvent` that is notified after another thread refilled the queue without
blocking sleeps again with the flag down.  In both, the drain that empties
the queue calls no `notify_all` and the thread stays asleep on an empty
queue. -/
theorem waiter_asleep_with_flag_down :
    (∃ s s1, run pushThenWait (Sys.start relay0) = .ok s ∧
      s.waiters = [⟨0, .inWaitForEmptyQueue, false⟩] ∧ someoneAsleep s = true ∧
      s.relay.m_queue = [poke1] ∧ s.relay.m_wake_me_up_again = false ∧
      run drainOne s = .ok s1 ∧
      s1.relay.m_queue = [] ∧ s1.consumer = .idle ∧
      s1.ops = s.ops ++ [.Flush, .HandleEvent poke1] ∧
      s1.waiters = [⟨0, .inWaitForEmptyQueue, false⟩]) ∧
    (∃ s s1, run refillBeforeRecheck (Sys.start relay0) = .ok s ∧
      s.waiters = [⟨0, .inPushEvent poke1, false⟩] ∧ someoneAsleep s = true ∧
      s.relay.m_queue = [swap1] ∧ s.relay.m_wake_me_up_again = false ∧
      run drainOne s = .ok s1 ∧
      s1.relay.m_queue = [] ∧ s1.consumer = .idle ∧
      s1.ops = s.ops ++ [.Flush, .HandleEvent swap1] ∧
      s1.waiters = [⟨0, .inPushEvent poke1, false⟩]) :=
  ⟨⟨_, _, rfl, rfl, rfl, rfl, rfl, rfl, rfl, rfl, rfl, rfl⟩,
   ⟨_, _, rfl, rfl, rfl, rfl, rfl, rfl, rfl, rfl, rfl, rfl⟩⟩

end AsyncRequests
